import Mathlib

/-!
Verification of `mapproxy/script/export.py`.

The first part embeds the pure helper functions of the module
(`parse_levels`, `supports_tiled_access`) as executable Lean functions,
modelling Python semantics explicitly: `str.split`, `str.strip`,
the (unescaped) regular expression `\d+..\d+` used by `parse_levels`,
Python `int()` conversion, and exceptions as `Except` values.

The second part models the body of `export_command` (from the inline-grid
branch onward) as a pure function from the parsed options, the loaded
configuration and an oracle for the external collaborators to a trace of
collaborator calls plus an outcome.
-/

/-- Python exceptions that the embedded code can raise. -/
inductive PyErr where
  | valueError
  | indexError
  | attributeError
  deriving DecidableEq, Repr

def isWs (c : Char) : Bool := c.isWhitespace

def isDigitC (c : Char) : Bool := c.isDigit

/-- Python `s.split(',')`: split on every comma, keeping empty parts;
the empty string yields `[""]`. -/
def splitComma : List Char → List (List Char)
  | [] => [[]]
  | c :: rest =>
    if c = ',' then [] :: splitComma rest
    else
      match splitComma rest with
      | [] => [[c]]
      | p :: ps => (c :: p) :: ps

/-- Python `s.split('..')`: split on the two-character separator `..`,
left to right, non-overlapping. -/
def splitDD : List Char → List (List Char)
  | [] => [[]]
  | [c] => [[c]]
  | c :: d :: rest =>
    if c = '.' ∧ d = '.' then [] :: splitDD rest
    else
      match splitDD (d :: rest) with
      | [] => [[c]]
      | p :: ps => (c :: p) :: ps

def dropWs (l : List Char) : List Char := l.dropWhile isWs

/-- Python `s.strip()`: remove leading and trailing whitespace. -/
def strip (l : List Char) : List Char := (dropWs ((dropWs l).reverse)).reverse

/-- Python `re.match('\d+..\d+', s)` as a Boolean: the pattern (with the
two dots unescaped, exactly as in the source) matches a prefix of `s` iff
there is a digit run `s[0..j)` (`j ≥ 1`) followed by two arbitrary
non-newline characters and then a digit at position `j+2`. -/
def reMatchDD (s : List Char) : Bool :=
  (List.range s.length).any fun j =>
    decide (1 ≤ j) && decide (j + 3 ≤ s.length) &&
    ((List.range j).all fun i => isDigitC (s.getD i ' ')) &&
    (!(s.getD j ' ' = '\n') : Bool) && (!(s.getD (j + 1) ' ' = '\n') : Bool) &&
    isDigitC (s.getD (j + 2) ' ')

/-- Value of a digit string, most significant first. -/
def digitsVal (l : List Char) : Nat :=
  l.foldl (fun a c => 10 * a + (c.toNat - 48)) 0

/-- Python 2 `int(str)`: strip whitespace, allow one sign, then a
non-empty run of decimal digits; anything else raises `ValueError`. -/
def pyInt (l : List Char) : Except PyErr Int :=
  match strip l with
  | [] => .error .valueError
  | c :: rest =>
    if c = '-' then
      if rest ≠ [] ∧ rest.all isDigitC then .ok (-(digitsVal rest : Int))
      else .error .valueError
    else if c = '+' then
      if rest ≠ [] ∧ rest.all isDigitC then .ok (digitsVal rest : Int)
      else .error .valueError
    else if (c :: rest).all isDigitC then .ok (digitsVal (c :: rest) : Int)
    else .error .valueError

/-- Python `range(a, b + 1)` as a list (empty when `b < a`). -/
def rangeList (a b : Int) : List Int :=
  (List.range (b + 1 - a).toNat).map fun i => a + i

/-- Insert into a strictly sorted list, dropping duplicates. -/
def sInsert (x : Int) : List Int → List Int
  | [] => [x]
  | y :: ys =>
    if x < y then x :: y :: ys
    else if x = y then y :: ys
    else y :: sInsert x ys

/-- `sorted(set(l))`: the strictly increasing enumeration of the members. -/
def sortedDedup (l : List Int) : List Int := l.foldr sInsert []

/-- The loop body of `parse_levels`: process each comma-separated part,
accumulating levels; any malformed part raises. -/
def levelsLoop : List (List Char) → List Int → Except PyErr (List Int)
  | [], acc => .ok (sortedDedup acc)
  | p :: ps, acc =>
    let q := strip p
    if reMatchDD q then
      match splitDD q with
      | [a, b] =>
        match pyInt a, pyInt b with
        | .ok fa, .ok fb => levelsLoop ps (acc ++ rangeList fa fb)
        | .error e, _ => .error e
        | .ok _, .error e => .error e
      | _ => .error .valueError
    else
      match pyInt q with
      | .ok v => levelsLoop ps (acc ++ [v])
      | .error e => .error e

/-- `parse_levels` from `mapproxy/script/export.py`. -/
def parse_levels (s : String) : Except PyErr (List Int) :=
  levelsLoop (splitComma s.toList) []

/-- The decimal digit characters, for serializing integers. -/
def digitChar (d : Nat) : Char :=
  (['0', '1', '2', '3', '4', '5', '6', '7', '8', '9']).getD d '0'

/-- Decimal digits of a natural number (fuel-indexed so it is structural). -/
def natStrAux : Nat → Nat → List Char
  | 0, _ => []
  | fuel + 1, n =>
    if n < 10 then [digitChar n]
    else natStrAux fuel (n / 10) ++ [digitChar (n % 10)]

def natStr (n : Nat) : List Char := natStrAux (n + 1) n

/-- Python `str(int)`. -/
def intStr (x : Int) : List Char :=
  if x < 0 then '-' :: natStr (-x).toNat else natStr x.toNat

/-- Python `','.join(parts)`. -/
def joinComma : List (List Char) → List Char
  | [] => []
  | [t] => t
  | t :: ts => t ++ ',' :: joinComma ts

/-- Serializing a LevelSet as comma-joined integers (the round-trip
operation of the specification). -/
def serializeLevels (ls : List Int) : String :=
  String.mk (joinComma (ls.map intStr))

/-- One upstream source as seen by the cache manager: its
`supports_meta_tiles` attribute may be absent (`none`). -/
structure MgrSrc where
  supports_meta_tiles : Option Bool
  deriving DecidableEq, Repr

/-- The cache manager: exposes the list of upstream sources. -/
structure Mgr where
  sources : List MgrSrc
  deriving DecidableEq, Repr

/-- `supports_tiled_access` from `mapproxy/script/export.py`.
`getattr(mgr.sources[0], 'supports_meta_tiles')` has no default, so an
absent attribute raises `AttributeError`. -/
def supports_tiled_access (mgr : Mgr) : Except PyErr Bool :=
  match mgr.sources with
  | [s] =>
    match s.supports_meta_tiles with
    | none => .error .attributeError
    | some b => .ok (!b)
  | _ => .ok false

/-- The `seed_only` dict entry plus the rest of a source's configuration
dict (opaque). -/
structure SourceConf where
  seed_only : Option Bool
  rest : List (String × String)
  deriving DecidableEq, Repr

/-- An (opaque, already validated) grid configuration. -/
structure GridConf where
  opts : List (String × String)
  deriving DecidableEq, Repr

/-- The loaded configuration: named sources and named grids. -/
structure Conf where
  sources : List (String × SourceConf)
  grids : List (String × GridConf)
  deriving DecidableEq, Repr

/-- Dict assignment `d[k] = v`. -/
def dictSet (k : String) (v : GridConf) (l : List (String × GridConf)) :
    List (String × GridConf) :=
  (l.filter fun p => p.1 ≠ k) ++ [(k, v)]

/-- The `cache` sub-dict built by `export_command` for each `--type`. -/
inductive CacheDict where
  | mbtiles (filename : String)
  | file (directory : String)
  | fileTms (directory : String)
  deriving DecidableEq, Repr

/-- The full `cache_conf` dict handed to `CacheConfiguration`. -/
structure CacheConf where
  name : String
  grids : List String
  sources : List String
  cache : CacheDict
  deriving DecidableEq, Repr

/-- A bounding box (coordinates modelled as integers). -/
structure BBox where
  minx : Int
  miny : Int
  maxx : Int
  maxy : Int
  deriving DecidableEq, Repr

/-- The destination tile grid returned by the cache builder. -/
structure TileGrid where
  levels : Nat
  bbox : BBox
  srs : String
  deriving DecidableEq, Repr

/-- A resolved coverage: either a `BBOXCoverage` or one returned by the
external `load_coverage` collaborator. -/
inductive Coverage where
  | bboxCov (bbox : BBox) (srs : String)
  | loaded (id : Nat)
  deriving DecidableEq, Repr

/-- The data of the `SeedTask` handed to the seeding engine. -/
structure SeedTaskData where
  gridName : String
  dest : String
  mgr : Mgr
  levels : List Int
  coverage : Coverage
  dryRun : Bool
  concurrency : Int
  custom : Bool
  deriving DecidableEq, Repr

/-- Observable effects of `export_command`, in order of occurrence. -/
inductive Event where
  | errGridConf
  | errDest
  | errType (t : Option String)
  | errLevels (gridLevels : Nat)
  | loadCoverage (datasource : String) (srs : String) (whereOpt : Option String)
  | warnIncompat
  | printSummary
  | buildCaches (cc : CacheConf) (conf : Conf)
  | seedTask (td : SeedTaskData)
  deriving DecidableEq, Repr

/-- How the invocation ends: fall off the end, `sys.exit(code)`, or an
uncaught Python exception. -/
inductive Outcome where
  | finished
  | exited (code : Nat)
  | raised (e : PyErr)
  deriving DecidableEq, Repr

structure RunResult where
  events : List Event
  outcome : Outcome
  deriving DecidableEq, Repr

/-- The parsed command-line options relevant to the body of
`export_command` (required options present, configuration loaded). -/
structure Options where
  grid : String
  source : String
  dest : String
  type_ : Option String
  levels : String
  fetch_missing_tiles : Bool
  force : Bool
  dry_run : Bool
  concurrency : Int
  coverage : Option String
  srs : Option String
  whereOpt : Option String
  deriving DecidableEq, Repr

/-- Oracle for the external collaborators: filesystem existence check,
grid-definition parser/validator, cache builder, coverage loader. -/
structure World where
  destExists : Bool
  gridParse : Except Unit GridConf
  caches : TileGrid × Mgr
  coverageLoaded : Coverage
  deriving Repr

/-- Lines 200-218 of `export_command`: map the `--type` token to the
`cache` sub-dict, or fail (`unsupported --type`). -/
def selectCacheDict (type_ : Option String) (dest : String) :
    Except Unit CacheDict :=
  if type_ = some "mbtile" then .ok (.mbtiles dest)
  else if type_ = some "tc" ∨ type_ = some "mapproxy" then .ok (.file dest)
  else if type_ = some "tms" ∨ type_ = none then .ok (.fileTms dest)
  else .error ()

/-- Lines 221-222: mark every source of the loaded configuration
seed-only. -/
def markSeedOnly (conf : Conf) : Conf :=
  { conf with
    sources := conf.sources.map fun p => (p.1, { p.2 with seed_only := some true }) }

/-- Lines 220-222: the seed-only marking happens exactly when
`--fetch-missing-tiles` was not given. -/
def seedOnlyStep (fetchMissingTiles : Bool) (conf : Conf) : Conf :=
  if fetchMissingTiles then conf else markSeedOnly conf

/-- Lines 172-188 of `export_command`: if `--grid` contains `=`, parse it
as an inline grid definition and register it in the configuration under
the synthetic name; otherwise treat it as a grid-name reference. -/
def gridStep (opts : Options) (conf : Conf) (w : World) :
    Except Unit (String × Bool × Conf) :=
  if opts.grid.toList.contains '=' then
    w.gridParse.map fun gc =>
      ("tmp_mapproxy_export_grid", true,
        { conf with grids := dictSet "tmp_mapproxy_export_grid" gc conf.grids })
  else .ok (opts.grid, false, conf)

/-- The body of `export_command` (from line 172 on: inline-grid handling,
destination check, backend selection, seed-only marking, cache build,
level parsing and range check, coverage resolution, compatibility warning,
dispatch), as a function of the options, the loaded configuration and the
collaborator oracle. -/
def export_run (opts : Options) (conf : Conf) (w : World) : RunResult :=
  match gridStep opts conf w with
  | .error _ => { events := [.errGridConf], outcome := .exited 2 }
  | .ok (gridName, custom, conf₁) =>
    if w.destExists && !opts.force then
      { events := [.errDest], outcome := .exited 2 }
    else
      match selectCacheDict opts.type_ opts.dest with
      | .error _ => { events := [.errType opts.type_], outcome := .exited 2 }
      | .ok cd =>
        let conf₂ := seedOnlyStep opts.fetch_missing_tiles conf₁
        let cc : CacheConf :=
          { name := "export", grids := [gridName], sources := [opts.source], cache := cd }
        let tg := w.caches.1
        let mgr := w.caches.2
        match parse_levels opts.levels with
        | .error e => { events := [.buildCaches cc conf₂], outcome := .raised e }
        | .ok ls =>
          match ls.getLast? with
          | none => { events := [.buildCaches cc conf₂], outcome := .raised .indexError }
          | some last =>
            if last ≥ (tg.levels : Int) then
              { events := [.buildCaches cc conf₂, .errLevels tg.levels],
                outcome := .exited 2 }
            else
              let srsv := opts.srs.getD tg.srs
              let covStep : List Event × Coverage :=
                match opts.coverage with
                | some ds => ([.loadCoverage ds srsv opts.whereOpt], w.coverageLoaded)
                | none => ([], .bboxCov tg.bbox tg.srs)
              match supports_tiled_access mgr with
              | .error e =>
                { events := [.buildCaches cc conf₂] ++ covStep.1, outcome := .raised e }
              | .ok b =>
                { events := [.buildCaches cc conf₂] ++ covStep.1 ++
                    (if b then [] else [.warnIncompat]) ++
                    [.printSummary,
                     .seedTask
                       { gridName := gridName, dest := opts.dest, mgr := mgr,
                         levels := ls, coverage := covStep.2,
                         dryRun := opts.dry_run, concurrency := opts.concurrency,
                         custom := custom }],
                  outcome := .finished }

/-- Count of `buildCaches` collaborator calls in a trace. -/
def countBuild (evs : List Event) : Nat :=
  evs.countP fun e => match e with | .buildCaches _ _ => true | _ => false

/-- Count of seeding-engine calls in a trace. -/
def countSeed (evs : List Event) : Nat :=
  evs.countP fun e => match e with | .seedTask _ => true | _ => false

/-- A bounding box describes a non-empty region. -/
def bboxNonempty (b : BBox) : Prop := b.minx < b.maxx ∧ b.miny < b.maxy

/-- A coverage is a non-empty region (for bbox coverages). -/
def covNonempty : Coverage → Prop
  | .bboxCov b _ => bboxNonempty b
  | .loaded _ => True

/-- C1: `parse_levels` fails on the well-formed single-integer spec
`"1234"`: the unescaped dots in the pattern `\d+..\d+` make it match any
integer of four or more digits, after which `split('..')` yields a single
part and unpacking raises `ValueError`.  Three-digit integers still parse
correctly. -/
theorem parse_levels_unescaped_regex_bug :
    parse_levels "1234" = .error .valueError ∧ parse_levels "123" = .ok [123] :=
  ⟨rfl, rfl⟩

/-- C2 (counterexample): for a manager with exactly one source whose
`supports_meta_tiles` attribute is absent, `supports_tiled_access` raises
`AttributeError` instead of returning `False`. -/
theorem supports_tiled_access_absent_attr_cex :
    supports_tiled_access ⟨[⟨none⟩]⟩ = .error .attributeError ∧
    supports_tiled_access ⟨[⟨none⟩]⟩ ≠ .ok false :=
  ⟨rfl, fun h => nomatch h⟩

/-- C2 (amended): `supports_tiled_access` returns `True` iff the manager
has exactly one source whose meta-tiling flag is explicitly `False`; it
returns `False` when the source count differs from one or the single
source's flag is `True`; a single source with the flag absent raises
`AttributeError`. -/
theorem supports_tiled_access_characterization (mgr : Mgr) :
    (supports_tiled_access mgr = .ok true ↔
      ∃ s, mgr.sources = [s] ∧ s.supports_meta_tiles = some false) ∧
    (mgr.sources.length ≠ 1 → supports_tiled_access mgr = .ok false) ∧
    (∀ s, mgr.sources = [s] → s.supports_meta_tiles = some true →
      supports_tiled_access mgr = .ok false) ∧
    (∀ s, mgr.sources = [s] → s.supports_meta_tiles = none →
      supports_tiled_access mgr = .error .attributeError) := by
  obtain ⟨srcs⟩ := mgr
  match srcs with
  | [] => simp [supports_tiled_access]
  | [s] =>
    match hs : s.supports_meta_tiles with
    | none => simp [supports_tiled_access, hs]
    | some b => cases b <;> simp [supports_tiled_access, hs]
  | a :: b :: t => simp [supports_tiled_access]

/-- C2 (witness): a manager with no sources gets verdict `False`. -/
theorem supports_tiled_access_characterization_witness :
    supports_tiled_access ⟨[]⟩ = .ok false :=
  (supports_tiled_access_characterization ⟨[]⟩).2.1 (by simp)

/-- C6 (counterexample): the descending range `"5..3"` does not fail;
`parse_levels` returns the empty level list. -/
theorem parse_levels_descending_range_cex :
    parse_levels "5..3" = .ok [] :=
  rfl

/-- C7 (counterexample): `parse_levels` accepts `"5..3"`, producing the
empty LevelSet, but re-parsing its comma-joined serialization (the empty
string) raises `ValueError`. -/
theorem parse_levels_roundtrip_cex :
    parse_levels "5..3" = .ok [] ∧
    parse_levels (serializeLevels []) = .error .valueError :=
  ⟨rfl, rfl⟩

/-- C8 (counterexample): whitespace around the range separator is
significant: `"1..3"` parses to `[1, 2, 3]` but `"1 .. 3"` raises
`ValueError`. -/
theorem parse_levels_ws_separator_cex :
    parse_levels "1..3" = .ok [1, 2, 3] ∧
    parse_levels "1 .. 3" = .error .valueError :=
  ⟨rfl, rfl⟩

/-- C3: whenever the destination exists and `--force` is not set,
`export_command` exits with code 2 and neither the cache builder nor the
seeding engine is ever called. -/
theorem export_dest_exists_fails_early (opts : Options) (conf : Conf) (w : World)
    (hex : w.destExists = true) (hf : opts.force = false) :
    (export_run opts conf w).outcome = .exited 2 ∧
    countBuild (export_run opts conf w).events = 0 ∧
    countSeed (export_run opts conf w).events = 0 := by
  have h : (w.destExists && !opts.force) = true := by simp [hex, hf]
  unfold export_run
  cases hgs : gridStep opts conf w with
  | error e => simp [countBuild, countSeed]
  | ok v =>
    obtain ⟨g, cu, c₁⟩ := v
    simp [h, countBuild, countSeed]

/-- C3 (witness): a concrete invocation with an existing destination and
no `--force` exits 2 with zero collaborator calls. -/
theorem export_dest_exists_fails_early_witness :
    (export_run ⟨"g", "s", "d", none, "1", false, false, false, 1, none, none, none⟩
        ⟨[], []⟩
        ⟨true, .error (), (⟨5, ⟨0, 0, 1, 1⟩, "EPSG:4326"⟩, ⟨[]⟩), .loaded 0⟩).outcome
      = .exited 2 ∧
    countBuild (export_run
        ⟨"g", "s", "d", none, "1", false, false, false, 1, none, none, none⟩
        ⟨[], []⟩
        ⟨true, .error (), (⟨5, ⟨0, 0, 1, 1⟩, "EPSG:4326"⟩, ⟨[]⟩), .loaded 0⟩).events = 0 ∧
    countSeed (export_run
        ⟨"g", "s", "d", none, "1", false, false, false, 1, none, none, none⟩
        ⟨[], []⟩
        ⟨true, .error (), (⟨5, ⟨0, 0, 1, 1⟩, "EPSG:4326"⟩, ⟨[]⟩), .loaded 0⟩).events = 0 :=
  export_dest_exists_fails_early _ _ _ rfl rfl

/-- C4: once the cache is built and the levels parsed, a highest
requested level that is not strictly below the grid's level count makes
the command exit 2, report the grid's actual level count and never reach
the seeding engine; a highest level strictly below the count passes the
check (no level-range error is ever reported). -/
theorem export_level_range_check (opts : Options) (conf : Conf) (w : World)
    (g : String) (cu : Bool) (c₁ : Conf) (cd : CacheDict)
    (ls : List Int) (last : Int)
    (hgs : gridStep opts conf w = .ok (g, cu, c₁))
    (hdest : (w.destExists && !opts.force) = false)
    (hty : selectCacheDict opts.type_ opts.dest = .ok cd)
    (hlv : parse_levels opts.levels = .ok ls)
    (hlast : ls.getLast? = some last) :
    ((w.caches.1.levels : Int) ≤ last →
      (export_run opts conf w).outcome = .exited 2 ∧
      Event.errLevels w.caches.1.levels ∈ (export_run opts conf w).events ∧
      countSeed (export_run opts conf w).events = 0) ∧
    (last < (w.caches.1.levels : Int) →
      ∀ n, Event.errLevels n ∉ (export_run opts conf w).events) := by
  unfold export_run
  simp only [hgs, hdest, hty, hlv, hlast]
  constructor
  · intro h
    simp [ge_iff_le, h, countSeed]
  · intro h n
    have hnot : ¬ (last ≥ (w.caches.1.levels : Int)) := not_le.mpr h
    simp only [ge_iff_le, Bool.false_eq_true, if_false]
    rw [if_neg hnot]
    cases hcov : opts.coverage with
    | none =>
      cases hsta : supports_tiled_access w.caches.2 with
      | error e => simp
      | ok b => cases b <;> simp
    | some ds =>
      cases hsta : supports_tiled_access w.caches.2 with
      | error e => simp
      | ok b => cases b <;> simp

/-- C4 (witness): requesting level 10 against a 5-level grid exits 2,
reports the count 5 and never calls the seeding engine. -/
theorem export_level_range_check_witness :
    (export_run ⟨"g", "s", "d", none, "10", false, false, false, 1, none, none, none⟩
        ⟨[], []⟩
        ⟨false, .error (), (⟨5, ⟨0, 0, 1, 1⟩, "EPSG:4326"⟩, ⟨[]⟩), .loaded 0⟩).outcome
      = .exited 2 ∧
    Event.errLevels 5 ∈ (export_run
        ⟨"g", "s", "d", none, "10", false, false, false, 1, none, none, none⟩
        ⟨[], []⟩
        ⟨false, .error (), (⟨5, ⟨0, 0, 1, 1⟩, "EPSG:4326"⟩, ⟨[]⟩), .loaded 0⟩).events ∧
    countSeed (export_run
        ⟨"g", "s", "d", none, "10", false, false, false, 1, none, none, none⟩
        ⟨[], []⟩
        ⟨false, .error (), (⟨5, ⟨0, 0, 1, 1⟩, "EPSG:4326"⟩, ⟨[]⟩), .loaded 0⟩).events = 0 :=
  (export_level_range_check
    ⟨"g", "s", "d", none, "10", false, false, false, 1, none, none, none⟩
    ⟨[], []⟩
    ⟨false, .error (), (⟨5, ⟨0, 0, 1, 1⟩, "EPSG:4326"⟩, ⟨[]⟩), .loaded 0⟩
    "g" false ⟨[], []⟩ (.fileTms "d") [10] 10
    rfl rfl rfl rfl rfl).1 (by decide)

/-- C5: the `--type` token selects the backend dict exactly as the code's
if/elif chain does — unspecified and `tms` give the tms-layout directory
cache, `mbtile` the mbtiles file cache, `tc`/`mapproxy` the legacy
directory cache — and any other token makes the command exit 2 before the
cache is built or any seeding happens. -/
theorem export_backend_selection (opts : Options) (conf : Conf) (w : World)
    (g : String) (cu : Bool) (c₁ : Conf)
    (hgs : gridStep opts conf w = .ok (g, cu, c₁))
    (hdest : (w.destExists && !opts.force) = false) :
    (opts.type_ = none →
      selectCacheDict opts.type_ opts.dest = .ok (.fileTms opts.dest)) ∧
    (opts.type_ = some "mbtile" →
      selectCacheDict opts.type_ opts.dest = .ok (.mbtiles opts.dest)) ∧
    (opts.type_ = some "tc" →
      selectCacheDict opts.type_ opts.dest = .ok (.file opts.dest)) ∧
    (opts.type_ = some "mapproxy" →
      selectCacheDict opts.type_ opts.dest = .ok (.file opts.dest)) ∧
    (opts.type_ = some "tms" →
      selectCacheDict opts.type_ opts.dest = .ok (.fileTms opts.dest)) ∧
    (∀ t, opts.type_ = some t →
      t ∉ (["mbtile", "tc", "mapproxy", "tms"] : List String) →
      (export_run opts conf w).outcome = .exited 2 ∧
      countBuild (export_run opts conf w).events = 0 ∧
      countSeed (export_run opts conf w).events = 0) := by
  refine ⟨fun h => ?_, fun h => ?_, fun h => ?_, fun h => ?_, fun h => ?_,
    fun t ht hn => ?_⟩
  · simp [selectCacheDict, h]
  · simp [selectCacheDict, h]
  · simp [selectCacheDict, h]
  · simp [selectCacheDict, h]
  · simp [selectCacheDict, h]
  · simp only [List.mem_cons, List.mem_singleton, not_or] at hn
    obtain ⟨h1, h2, h3, h4⟩ := hn
    have hsel : selectCacheDict opts.type_ opts.dest = .error () := by
      simp [selectCacheDict, ht, h1, h2, h3, h4]
    unfold export_run
    simp [hgs, hdest, hsel, countBuild, countSeed]

/-- C5 (witness): the unknown token `zip` is rejected with exit 2 and
zero collaborator calls. -/
theorem export_backend_selection_witness :
    (export_run ⟨"g", "s", "d", some "zip", "1", false, false, false, 1, none, none, none⟩
        ⟨[], []⟩
        ⟨false, .error (), (⟨5, ⟨0, 0, 1, 1⟩, "EPSG:4326"⟩, ⟨[]⟩), .loaded 0⟩).outcome
      = .exited 2 ∧
    countBuild (export_run
        ⟨"g", "s", "d", some "zip", "1", false, false, false, 1, none, none, none⟩
        ⟨[], []⟩
        ⟨false, .error (), (⟨5, ⟨0, 0, 1, 1⟩, "EPSG:4326"⟩, ⟨[]⟩), .loaded 0⟩).events = 0 ∧
    countSeed (export_run
        ⟨"g", "s", "d", some "zip", "1", false, false, false, 1, none, none, none⟩
        ⟨[], []⟩
        ⟨false, .error (), (⟨5, ⟨0, 0, 1, 1⟩, "EPSG:4326"⟩, ⟨[]⟩), .loaded 0⟩).events = 0 :=
  (export_backend_selection
    ⟨"g", "s", "d", some "zip", "1", false, false, false, 1, none, none, none⟩
    ⟨[], []⟩
    ⟨false, .error (), (⟨5, ⟨0, 0, 1, 1⟩, "EPSG:4326"⟩, ⟨[]⟩), .loaded 0⟩
    "g" false ⟨[], []⟩ rfl rfl).2.2.2.2.2
    "zip" rfl (by decide)

/-- C9: when neither a bbox nor a datasource coverage is supplied, the
task dispatched to the seeding engine carries exactly the
`BBOXCoverage` of the destination grid's full extent in the grid's own
spatial reference, and it is a non-empty region whenever the grid's
bounding box is. -/
theorem export_default_coverage (opts : Options) (conf : Conf) (w : World)
    (g : String) (cu : Bool) (c₁ : Conf) (cd : CacheDict)
    (ls : List Int) (last : Int) (b : Bool)
    (hgs : gridStep opts conf w = .ok (g, cu, c₁))
    (hdest : (w.destExists && !opts.force) = false)
    (hty : selectCacheDict opts.type_ opts.dest = .ok cd)
    (hlv : parse_levels opts.levels = .ok ls)
    (hlast : ls.getLast? = some last)
    (hrange : last < (w.caches.1.levels : Int))
    (hcov : opts.coverage = none)
    (hsta : supports_tiled_access w.caches.2 = .ok b) :
    ∃ td, Event.seedTask td ∈ (export_run opts conf w).events ∧
      td.coverage = Coverage.bboxCov w.caches.1.bbox w.caches.1.srs ∧
      (bboxNonempty w.caches.1.bbox → covNonempty td.coverage) := by
  have hnot : ¬ (last ≥ (w.caches.1.levels : Int)) := not_le.mpr hrange
  refine ⟨⟨g, opts.dest, w.caches.2, ls, .bboxCov w.caches.1.bbox w.caches.1.srs,
    opts.dry_run, opts.concurrency, cu⟩, ?_, rfl, fun h => h⟩
  unfold export_run
  simp only [hgs, hdest, hty, hlv, hlast, hcov, hsta, Bool.false_eq_true, if_false]
  rw [if_neg hnot]
  cases b <;> simp

/-- C9 (witness): a concrete invocation with no coverage input dispatches
the grid's full extent as coverage. -/
theorem export_default_coverage_witness :
    ∃ td, Event.seedTask td ∈ (export_run
        ⟨"g", "s", "d", none, "1", false, false, false, 1, none, some "EPSG:25832", none⟩
        ⟨[], []⟩
        ⟨false, .error (), (⟨5, ⟨0, 0, 10, 10⟩, "EPSG:4326"⟩, ⟨[⟨some false⟩]⟩),
          .loaded 0⟩).events ∧
      td.coverage = Coverage.bboxCov ⟨0, 0, 10, 10⟩ "EPSG:4326" ∧
      (bboxNonempty ⟨0, 0, 10, 10⟩ → covNonempty td.coverage) :=
  export_default_coverage
    ⟨"g", "s", "d", none, "1", false, false, false, 1, none, some "EPSG:25832", none⟩
    ⟨[], []⟩
    ⟨false, .error (), (⟨5, ⟨0, 0, 10, 10⟩, "EPSG:4326"⟩, ⟨[⟨some false⟩]⟩), .loaded 0⟩
    "g" false ⟨[], []⟩ (.fileTms "d") [1] 1 true
    rfl rfl rfl rfl rfl (by decide) rfl rfl

/-- C10: the cache builder is called with the configuration produced by
the seed-only step; when `--fetch-missing-tiles` is absent that step sets
`seed_only := True` on every source of the configuration and changes
nothing else (names, order, remaining source options, grids); when the
flag is given the configuration is untouched. -/
theorem export_seed_only_frame (opts : Options) (conf : Conf) (w : World)
    (g : String) (cu : Bool) (c₁ : Conf) (cd : CacheDict)
    (hgs : gridStep opts conf w = .ok (g, cu, c₁))
    (hdest : (w.destExists && !opts.force) = false)
    (hty : selectCacheDict opts.type_ opts.dest = .ok cd) :
    (export_run opts conf w).events.head? =
      some (.buildCaches ⟨"export", [g], [opts.source], cd⟩
        (seedOnlyStep opts.fetch_missing_tiles c₁)) ∧
    (opts.fetch_missing_tiles = false →
      (seedOnlyStep opts.fetch_missing_tiles c₁).sources =
        c₁.sources.map (fun p => (p.1, { p.2 with seed_only := some true })) ∧
      (seedOnlyStep opts.fetch_missing_tiles c₁).grids = c₁.grids ∧
      ∀ p ∈ (seedOnlyStep opts.fetch_missing_tiles c₁).sources,
        p.2.seed_only = some true) ∧
    (opts.fetch_missing_tiles = true →
      seedOnlyStep opts.fetch_missing_tiles c₁ = c₁) := by
  refine ⟨?_, fun hfetch => ?_, fun hfetch => ?_⟩
  · unfold export_run
    simp only [hgs, hdest, hty, Bool.false_eq_true, if_false]
    repeat' split
    all_goals rfl
  · rw [hfetch]
    refine ⟨rfl, rfl, ?_⟩
    intro p hp
    simp only [seedOnlyStep, Bool.false_eq_true, if_false, markSeedOnly,
      List.mem_map] at hp
    obtain ⟨q, hq, rfl⟩ := hp
    rfl
  · rw [hfetch]
    rfl

/-- C10 (witness): with the flag absent, the cache builder sees the
configuration in which the source — including one not referenced by the
export cache — is marked seed-only, with its other options intact. -/
theorem export_seed_only_frame_witness :
    (export_run ⟨"g", "s", "d", none, "1", false, false, false, 1, none, none, none⟩
        ⟨[("other_source", ⟨none, [("url", "http://x")]⟩)], []⟩
        ⟨false, .error (), (⟨5, ⟨0, 0, 1, 1⟩, "EPSG:4326"⟩, ⟨[]⟩), .loaded 0⟩).events.head?
      = some (.buildCaches ⟨"export", ["g"], ["s"], .fileTms "d"⟩
          ⟨[("other_source", ⟨some true, [("url", "http://x")]⟩)], []⟩) :=
  (export_seed_only_frame
    ⟨"g", "s", "d", none, "1", false, false, false, 1, none, none, none⟩
    ⟨[("other_source", ⟨none, [("url", "http://x")]⟩)], []⟩
    ⟨false, .error (), (⟨5, ⟨0, 0, 1, 1⟩, "EPSG:4326"⟩, ⟨[]⟩), .loaded 0⟩
    "g" false
    ⟨[("other_source", ⟨none, [("url", "http://x")]⟩)], []⟩ (.fileTms "d")
    rfl rfl rfl).1

theorem isDigitC_ne_comma {c : Char} (h : isDigitC c = true) : c ≠ ',' := by
  intro hc; subst hc; exact absurd h (by decide)

theorem isDigitC_ne_dot {c : Char} (h : isDigitC c = true) : c ≠ '.' := by
  intro hc; subst hc; exact absurd h (by decide)

theorem isDigitC_ne_minus {c : Char} (h : isDigitC c = true) : c ≠ '-' := by
  intro hc; subst hc; exact absurd h (by decide)

theorem isDigitC_ne_plus {c : Char} (h : isDigitC c = true) : c ≠ '+' := by
  intro hc; subst hc; exact absurd h (by decide)

theorem isDigitC_not_ws {c : Char} (h : isDigitC c = true) : isWs c = false := by
  by_contra hws
  rw [Bool.not_eq_false] at hws
  simp only [isWs, Char.isWhitespace, Bool.or_eq_true, decide_eq_true_eq] at hws
  rcases hws with ((rfl | rfl) | rfl) | rfl <;> exact absurd h (by decide)

theorem dropWs_all_not_ws {l : List Char} (h : ∀ c ∈ l, isWs c = false) :
    dropWs l = l := by
  cases l with
  | nil => rfl
  | cons c r =>
    simp only [dropWs, List.dropWhile_cons]
    rw [h c (List.mem_cons_self c r)]
    simp

theorem strip_all_not_ws {l : List Char} (h : ∀ c ∈ l, isWs c = false) :
    strip l = l := by
  rw [strip, dropWs_all_not_ws h, dropWs_all_not_ws, List.reverse_reverse]
  intro c hc
  exact h c (List.mem_reverse.mp hc)

theorem splitComma_no_comma {l : List Char} (h : ∀ c ∈ l, c ≠ ',') :
    splitComma l = [l] := by
  induction l with
  | nil => rfl
  | cons c r ih =>
    have hc : c ≠ ',' := h c (List.mem_cons_self c r)
    simp only [splitComma, if_neg hc]
    rw [ih fun x hx => h x (List.mem_cons_of_mem c hx)]

theorem splitComma_append {t rest : List Char} (h : ∀ c ∈ t, c ≠ ',') :
    splitComma (t ++ ',' :: rest) = t :: splitComma rest := by
  induction t with
  | nil => simp [splitComma]
  | cons c t' ih =>
    have hc : c ≠ ',' := h c (List.mem_cons_self c t')
    simp only [List.cons_append, splitComma, if_neg hc, List.append_eq]
    rw [ih fun x hx => h x (List.mem_cons_of_mem c hx)]

theorem splitComma_joinComma {ts : List (List Char)} (hne : ts ≠ [])
    (h : ∀ t ∈ ts, ∀ c ∈ t, c ≠ ',') :
    splitComma (joinComma ts) = ts := by
  induction ts with
  | nil => exact absurd rfl hne
  | cons t ts' ih =>
    cases ts' with
    | nil => exact splitComma_no_comma (h t (List.mem_cons_self t []))
    | cons t' ts'' =>
      show splitComma (t ++ ',' :: joinComma (t' :: ts'')) = _
      rw [splitComma_append (h t (List.mem_cons_self t _)),
        ih (by simp) fun u hu => h u (List.mem_cons_of_mem t hu)]

theorem splitDD_no_dot {l : List Char} (h : ∀ c ∈ l, c ≠ '.') :
    splitDD l = [l] := by
  induction l using splitDD.induct with
  | case1 => rfl
  | case2 c => rfl
  | case3 c d rest hdd ih =>
    exact absurd hdd.1 (h c (List.mem_cons_self c _))
  | case4 c d rest hdd heq ih =>
    rw [ih fun x hx => h x (List.mem_cons_of_mem c hx)] at heq
    exact nomatch heq
  | case5 c d rest hdd p ps heq ih =>
    have h' := ih fun x hx => h x (List.mem_cons_of_mem c hx)
    rw [h'] at heq
    obtain ⟨rfl, rfl⟩ : p = d :: rest ∧ ps = [] := by
      injection heq with h1 h2; exact ⟨h1.symm, h2.symm⟩
    simp only [splitDD, if_neg hdd, h']

theorem splitDD_mid {d1 d2 : List Char} (h1 : ∀ c ∈ d1, c ≠ '.')
    (h2 : ∀ c ∈ d2, c ≠ '.') :
    splitDD (d1 ++ '.' :: '.' :: d2) = [d1, d2] := by
  induction d1 with
  | nil =>
    show splitDD ('.' :: '.' :: d2) = _
    simp only [splitDD]
    rw [splitDD_no_dot h2]
    simp
  | cons c d1' ih =>
    have hc : c ≠ '.' := h1 c (List.mem_cons_self c d1')
    have ih' := ih fun x hx => h1 x (List.mem_cons_of_mem c hx)
    cases d1' with
    | nil =>
      show splitDD (c :: '.' :: '.' :: d2) = _
      simp [splitDD, hc, splitDD_no_dot h2]
    | cons e d1'' =>
      have hne : ¬(c = '.' ∧ e = '.') := fun hp => hc hp.1
      show splitDD (c :: (e :: d1'' ++ '.' :: '.' :: d2)) = _
      rw [show e :: d1'' ++ '.' :: '.' :: d2 = e :: (d1'' ++ '.' :: '.' :: d2) from rfl]
      simp only [splitDD]
      rw [show e :: (d1'' ++ '.' :: '.' :: d2) = e :: d1'' ++ '.' :: '.' :: d2 from rfl,
        ih']
      rw [if_neg hne]

theorem reMatchDD_short {s : List Char} (h : s.length ≤ 3) :
    reMatchDD s = false := by
  rw [Bool.eq_false_iff]
  intro hany
  rw [reMatchDD, List.any_eq_true] at hany
  obtain ⟨j, hj, hcond⟩ := hany
  simp only [Bool.and_eq_true, decide_eq_true_eq] at hcond
  obtain ⟨⟨⟨⟨⟨h1, h2⟩, -⟩, -⟩, -⟩, -⟩ := hcond
  omega

theorem reMatchDD_not_digit_head {c : Char} {t : List Char}
    (h : isDigitC c = false) : reMatchDD (c :: t) = false := by
  rw [Bool.eq_false_iff]
  intro hany
  rw [reMatchDD, List.any_eq_true] at hany
  obtain ⟨j, hj, hcond⟩ := hany
  simp only [Bool.and_eq_true, decide_eq_true_eq, List.all_eq_true] at hcond
  obtain ⟨⟨⟨⟨⟨h1, h2⟩, hall⟩, -⟩, -⟩, -⟩ := hcond
  have h0 := hall 0 (List.mem_range.mpr (by omega))
  rw [List.getD_cons_zero, h] at h0
  exact nomatch h0

theorem reMatchDD_range {d1 d2 : List Char} (h1ne : d1 ≠ []) (h2ne : d2 ≠ [])
    (hd1 : ∀ c ∈ d1, isDigitC c = true) (hd2 : ∀ c ∈ d2, isDigitC c = true) :
    reMatchDD (d1 ++ '.' :: '.' :: d2) = true := by
  have hlen : (d1 ++ '.' :: '.' :: d2).length = d1.length + (d2.length + 2) := by
    simp [List.length_append]
  have hp1 : 0 < d1.length := List.length_pos.mpr h1ne
  have hp2 : 0 < d2.length := List.length_pos.mpr h2ne
  rw [reMatchDD, List.any_eq_true]
  refine ⟨d1.length, List.mem_range.mpr (by omega), ?_⟩
  simp only [Bool.and_eq_true, decide_eq_true_eq, List.all_eq_true,
    Bool.not_eq_true', decide_eq_false_iff_not]
  refine ⟨⟨⟨⟨⟨by omega, by omega⟩, ?_⟩, ?_⟩, ?_⟩, ?_⟩
  · intro i hi
    have hi' : i < d1.length := List.mem_range.mp hi
    rw [List.getD_append _ _ _ _ hi']
    rw [List.getD_eq_getElem _ _ hi']
    exact hd1 _ (List.getElem_mem hi')
  · rw [List.getD_append_right _ _ _ _ (Nat.le_refl _), Nat.sub_self,
      List.getD_cons_zero]
    decide
  · rw [List.getD_append_right _ _ _ _ (Nat.le_add_right _ _),
      Nat.add_sub_cancel_left, List.getD_cons_succ, List.getD_cons_zero]
    decide
  · rw [List.getD_append_right _ _ _ _ (Nat.le_add_right _ _),
      Nat.add_sub_cancel_left, List.getD_cons_succ, List.getD_cons_succ]
    cases d2 with
    | nil => exact absurd rfl h2ne
    | cons e d2' =>
      rw [List.getD_cons_zero]
      exact hd2 e (List.mem_cons_self e d2')

theorem pyInt_digits {l : List Char} (hne : l ≠ [])
    (hd : ∀ c ∈ l, isDigitC c = true) :
    pyInt l = .ok (digitsVal l : Int) := by
  have hs : strip l = l := strip_all_not_ws fun c hc => isDigitC_not_ws (hd c hc)
  cases l with
  | nil => exact absurd rfl hne
  | cons c rest =>
    have hcd := hd c (List.mem_cons_self c rest)
    simp only [pyInt, hs]
    rw [if_neg (isDigitC_ne_minus hcd), if_neg (isDigitC_ne_plus hcd), if_pos]
    rw [List.all_eq_true]
    exact fun x hx => hd x hx

theorem rangeList_empty {a b : Int} (h : b < a) : rangeList a b = [] := by
  rw [rangeList]
  have h0 : (b + 1 - a).toNat = 0 := by omega
  rw [h0]
  rfl

/-- C6 (amended): for every range token `A..B` (both bounds non-empty
digit strings) with `A > B`, `parse_levels` does not fail: the token
contributes the empty set of levels, so the whole spec parses to `[]`. -/
theorem parse_levels_descending_range_empty (d1 d2 : List Char)
    (h1 : d1 ≠ []) (h2 : d2 ≠ [])
    (hd1 : ∀ c ∈ d1, isDigitC c = true) (hd2 : ∀ c ∈ d2, isDigitC c = true)
    (hba : digitsVal d2 < digitsVal d1) :
    parse_levels (String.mk (d1 ++ '.' :: '.' :: d2)) = .ok [] := by
  have hnc : ∀ c ∈ d1 ++ '.' :: '.' :: d2, c ≠ ',' := by
    intro c hc
    rcases List.mem_append.mp hc with h | h
    · exact isDigitC_ne_comma (hd1 c h)
    · rcases List.mem_cons.mp h with rfl | h'
      · decide
      · rcases List.mem_cons.mp h' with rfl | h''
        · decide
        · exact isDigitC_ne_comma (hd2 c h'')
  have hns : ∀ c ∈ d1 ++ '.' :: '.' :: d2, isWs c = false := by
    intro c hc
    rcases List.mem_append.mp hc with h | h
    · exact isDigitC_not_ws (hd1 c h)
    · rcases List.mem_cons.mp h with rfl | h'
      · decide
      · rcases List.mem_cons.mp h' with rfl | h''
        · decide
        · exact isDigitC_not_ws (hd2 c h'')
  have htl : (String.mk (d1 ++ '.' :: '.' :: d2)).toList = d1 ++ '.' :: '.' :: d2 :=
    rfl
  rw [parse_levels, htl, splitComma_no_comma hnc]
  simp only [levelsLoop, strip_all_not_ws hns,
    reMatchDD_range h1 h2 hd1 hd2, if_true,
    splitDD_mid (fun c hc => isDigitC_ne_dot (hd1 c hc))
      (fun c hc => isDigitC_ne_dot (hd2 c hc)),
    pyInt_digits h1 hd1, pyInt_digits h2 hd2]
  rw [rangeList_empty (by exact_mod_cast hba)]
  rfl

/-- C6 (amended, witness): `parse_levels "5..3"` succeeds with `[]`. -/
theorem parse_levels_descending_range_empty_witness :
    parse_levels (String.mk (['5'] ++ '.' :: '.' :: ['3'])) = .ok [] :=
  parse_levels_descending_range_empty ['5'] ['3'] (by decide) (by decide)
    (by decide) (by decide) (by decide)

theorem isWs_ne_comma {c : Char} (h : isWs c = true) : c ≠ ',' := by
  intro hc; subst hc; exact absurd h (by decide)

theorem dropWs_ws_append {pre l : List Char} (h : ∀ c ∈ pre, isWs c = true) :
    dropWs (pre ++ l) = dropWs l := by
  induction pre with
  | nil => rfl
  | cons c pr ih =>
    rw [List.cons_append, dropWs, List.dropWhile_cons_of_pos
      (h c (List.mem_cons_self c pr))]
    exact ih fun x hx => h x (List.mem_cons_of_mem c hx)

theorem dropWs_append_of_ne_nil {t post : List Char} (h : dropWs t ≠ []) :
    dropWs (t ++ post) = dropWs t ++ post := by
  induction t with
  | nil => exact absurd rfl h
  | cons c r ih =>
    cases hw : isWs c with
    | true =>
      rw [List.cons_append, dropWs, List.dropWhile_cons_of_pos hw]
      rw [dropWs, List.dropWhile_cons_of_pos hw] at h ⊢
      exact ih h
    | false =>
      rw [List.cons_append, dropWs, List.dropWhile_cons_of_neg (by simp [hw])]
      rw [dropWs, List.dropWhile_cons_of_neg (by simp [hw])]
      rfl

theorem strip_pad {pre t post : List Char} (hpre : ∀ c ∈ pre, isWs c = true)
    (hpost : ∀ c ∈ post, isWs c = true) :
    strip (pre ++ t ++ post) = strip t := by
  rw [strip, strip, List.append_assoc, dropWs_ws_append hpre]
  by_cases hnil : dropWs t = []
  · have hall : ∀ c ∈ t, isWs c = true := by
      intro c hc
      exact List.dropWhile_eq_nil_iff.mp hnil c hc
    have hall2 : dropWs (t ++ post) = [] := by
      rw [dropWs, List.dropWhile_eq_nil_iff]
      intro x hx
      rcases List.mem_append.mp hx with h | h
      · exact hall x h
      · exact hpost x h
    rw [hall2, hnil]
  · rw [dropWs_append_of_ne_nil hnil, List.reverse_append,
      dropWs_ws_append fun c hc => hpost c (List.mem_reverse.mp hc)]

theorem levelsLoop_congr {ps qs : List (List Char)} (acc : List Int)
    (h : ps.map strip = qs.map strip) :
    levelsLoop ps acc = levelsLoop qs acc := by
  induction ps generalizing qs acc with
  | nil =>
    rw [List.eq_nil_of_map_eq_nil h.symm]
  | cons p ps' ih =>
    cases qs with
    | nil => exact nomatch h
    | cons q qs' =>
      rw [List.map_cons, List.map_cons] at h
      have h1 : strip p = strip q := by injection h
      have h2 : ps'.map strip = qs'.map strip := by injection h
      simp only [levelsLoop, h1]
      cases hre : reMatchDD (strip q) with
      | false =>
        simp only [Bool.false_eq_true, if_false]
        cases hpi : pyInt (strip q) with
        | ok v => exact ih _ h2
        | error e => rfl
      | true =>
        simp only [if_true]
        cases hsd : splitDD (strip q) with
        | nil => rfl
        | cons a rest =>
          cases rest with
          | nil => rfl
          | cons b rest2 =>
            cases rest2 with
            | nil =>
              cases hpa : pyInt a with
              | error e => simp [hpa]
              | ok fa =>
                cases hpb : pyInt b with
                | error e => simp [hpa, hpb]
                | ok fb =>
                  simp only [hpa, hpb]
                  exact ih _ h2
            | cons x xs => rfl

/-- C8 (amended): whitespace around the comma-separated tokens is
insignificant — padding each token with whitespace on either side leaves
the result of `parse_levels` unchanged.  (Whitespace around the `..`
separator, by contrast, changes the result: see the counterexample.) -/
theorem parse_levels_token_ws_insensitive
    (ps : List (List Char × List Char × List Char))
    (hws : ∀ p ∈ ps, (∀ c ∈ p.1, isWs c = true) ∧ (∀ c ∈ p.2.2, isWs c = true))
    (hnc : ∀ p ∈ ps, ∀ c ∈ p.2.1, c ≠ ',') :
    parse_levels (String.mk (joinComma (ps.map fun p => p.1 ++ p.2.1 ++ p.2.2))) =
    parse_levels (String.mk (joinComma (ps.map fun p => p.2.1))) := by
  cases hps : ps with
  | nil => rfl
  | cons p0 ps' =>
    rw [← hps]
    have hne : ps ≠ [] := by rw [hps]; simp
    rw [parse_levels, parse_levels]
    have htl1 : (String.mk (joinComma (ps.map fun p => p.1 ++ p.2.1 ++ p.2.2))).toList
        = joinComma (ps.map fun p => p.1 ++ p.2.1 ++ p.2.2) := rfl
    have htl2 : (String.mk (joinComma (ps.map fun p => p.2.1))).toList
        = joinComma (ps.map fun p => p.2.1) := rfl
    rw [htl1, htl2]
    rw [splitComma_joinComma (by simpa using hne) ?h1,
      splitComma_joinComma (by simpa using hne) ?h2]
    case h1 =>
      intro t ht c hc
      obtain ⟨p, hp, rfl⟩ := List.mem_map.mp ht
      rcases List.mem_append.mp hc with h | h
      · rcases List.mem_append.mp h with h' | h'
        · exact isWs_ne_comma ((hws p hp).1 c h')
        · exact hnc p hp c h'
      · exact isWs_ne_comma ((hws p hp).2 c h)
    case h2 =>
      intro t ht c hc
      obtain ⟨p, hp, rfl⟩ := List.mem_map.mp ht
      exact hnc p hp c hc
    apply levelsLoop_congr
    rw [List.map_map, List.map_map]
    apply List.map_congr_left
    intro p hp
    exact strip_pad (hws p hp).1 (hws p hp).2

/-- C8 (amended, witness): padding the tokens of `"1,2"` with spaces
(`" 1 ,2"`) parses identically. -/
theorem parse_levels_token_ws_insensitive_witness :
    parse_levels (String.mk (joinComma
      (([([' '], ['1'], [' ']), ([], ['2'], [])] :
          List (List Char × List Char × List Char)).map
        fun p => p.1 ++ p.2.1 ++ p.2.2))) =
    parse_levels (String.mk (joinComma
      (([([' '], ['1'], [' ']), ([], ['2'], [])] :
          List (List Char × List Char × List Char)).map
        fun p => p.2.1))) :=
  parse_levels_token_ws_insensitive _ (by decide) (by decide)

theorem digitChar_digit {d : Nat} (h : d < 10) : isDigitC (digitChar d) = true := by
  interval_cases d <;> decide

theorem digitChar_val {d : Nat} (h : d < 10) : (digitChar d).toNat - 48 = d := by
  interval_cases d <;> decide

theorem digitsVal_append (l : List Char) (c : Char) :
    digitsVal (l ++ [c]) = 10 * digitsVal l + (c.toNat - 48) := by
  rw [digitsVal, List.foldl_append]
  rfl

theorem natStrAux_all_digit :
    ∀ fuel n, n < fuel → ∀ c ∈ natStrAux fuel n, isDigitC c = true := by
  intro fuel
  induction fuel with
  | zero => intro n hn; omega
  | succ fuel ih =>
    intro n hn c hc
    rw [natStrAux] at hc
    by_cases h10 : n < 10
    · rw [if_pos h10] at hc
      rcases List.mem_singleton.mp hc with rfl
      exact digitChar_digit h10
    · rw [if_neg h10] at hc
      rcases List.mem_append.mp hc with h | h
      · exact ih (n / 10) (by omega) c h
      · rcases List.mem_singleton.mp h with rfl
        exact digitChar_digit (Nat.mod_lt n (by omega))
  

theorem natStrAux_ne_nil {fuel n : Nat} (h : n < fuel) :
    natStrAux fuel n ≠ [] := by
  cases fuel with
  | zero => omega
  | succ fuel =>
    rw [natStrAux]
    by_cases h10 : n < 10
    · rw [if_pos h10]; simp
    · rw [if_neg h10]; simp

theorem natStrAux_val :
    ∀ fuel n, n < fuel → digitsVal (natStrAux fuel n) = n := by
  intro fuel
  induction fuel with
  | zero => intro n hn; omega
  | succ fuel ih =>
    intro n hn
    rw [natStrAux]
    by_cases h10 : n < 10
    · rw [if_pos h10]
      show 10 * 0 + ((digitChar n).toNat - 48) = n
      rw [digitChar_val h10]
      omega
    · rw [if_neg h10, digitsVal_append, ih (n / 10) (by omega),
        digitChar_val (Nat.mod_lt n (by omega))]
      omega

theorem natStrAux_len :
    ∀ fuel n k, n < fuel → n < 10 ^ k → 1 ≤ k →
      (natStrAux fuel n).length ≤ k := by
  intro fuel
  induction fuel with
  | zero => intro n k hn; omega
  | succ fuel ih =>
    intro n k hn hk h1
    rw [natStrAux]
    by_cases h10 : n < 10
    · rw [if_pos h10]; simpa using h1
    · rw [if_neg h10, List.length_append]
      have hk2 : 2 ≤ k := by
        by_contra hlt
        have : k = 1 := by omega
        subst this
        simp at hk
        omega
      have hdiv : n / 10 < 10 ^ (k - 1) := by
        rw [Nat.div_lt_iff_lt_mul (by omega)]
        calc n < 10 ^ k := hk
        _ = 10 ^ (k - 1) * 10 := by
              rw [← Nat.pow_succ]
              congr 1
              omega
      have := ih (n / 10) (k - 1) (by omega) hdiv (by omega)
      simp only [List.length_singleton]
      omega

theorem natStr_all_digit {n : Nat} : ∀ c ∈ natStr n, isDigitC c = true :=
  natStrAux_all_digit (n + 1) n (Nat.lt_succ_self n)

theorem natStr_ne_nil {n : Nat} : natStr n ≠ [] :=
  natStrAux_ne_nil (Nat.lt_succ_self n)

theorem natStr_val {n : Nat} : digitsVal (natStr n) = n :=
  natStrAux_val (n + 1) n (Nat.lt_succ_self n)

theorem natStr_len3 {n : Nat} (h : n < 1000) : (natStr n).length ≤ 3 :=
  natStrAux_len (n + 1) n 3 (Nat.lt_succ_self n) (by omega) (by omega)

theorem intStr_no_comma {x : Int} : ∀ c ∈ intStr x, c ≠ ',' := by
  intro c hc
  rw [intStr] at hc
  by_cases hx : x < 0
  · rw [if_pos hx] at hc
    rcases List.mem_cons.mp hc with rfl | h
    · decide
    · exact isDigitC_ne_comma (natStr_all_digit c h)
  · rw [if_neg hx] at hc
    exact isDigitC_ne_comma (natStr_all_digit c hc)

theorem intStr_not_ws {x : Int} : ∀ c ∈ intStr x, isWs c = false := by
  intro c hc
  rw [intStr] at hc
  by_cases hx : x < 0
  · rw [if_pos hx] at hc
    rcases List.mem_cons.mp hc with rfl | h
    · decide
    · exact isDigitC_not_ws (natStr_all_digit c h)
  · rw [if_neg hx] at hc
    exact isDigitC_not_ws (natStr_all_digit c hc)

theorem reMatchDD_intStr {x : Int} (h : x < 1000) :
    reMatchDD (intStr x) = false := by
  rw [intStr]
  by_cases hx : x < 0
  · rw [if_pos hx]
    exact reMatchDD_not_digit_head (by decide)
  · rw [if_neg hx]
    refine reMatchDD_short (natStr_len3 ?_)
    omega

theorem pyInt_intStr {x : Int} : pyInt (intStr x) = .ok x := by
  by_cases hx : x < 0
  · have hstr : intStr x = '-' :: natStr (-x).toNat := if_pos hx
    have hs : strip ('-' :: natStr (-x).toNat) = '-' :: natStr (-x).toNat := by
      rw [← hstr]
      exact strip_all_not_ws intStr_not_ws
    rw [hstr]
    simp only [pyInt, hs]
    rw [if_pos trivial, if_pos ⟨natStr_ne_nil, List.all_eq_true.mpr natStr_all_digit⟩]
    congr 1
    rw [natStr_val]
    omega
  · have hstr : intStr x = natStr x.toNat := if_neg hx
    rw [hstr, pyInt_digits natStr_ne_nil natStr_all_digit, natStr_val]
    congr 1
    omega

theorem mem_sInsert {a x : Int} {l : List Int} :
    a ∈ sInsert x l ↔ a = x ∨ a ∈ l := by
  induction l with
  | nil => simp [sInsert]
  | cons y ys ih =>
    rw [sInsert]
    by_cases h1 : x < y
    · rw [if_pos h1]; simp
    · rw [if_neg h1]
      by_cases h2 : x = y
      · rw [if_pos h2]
        subst h2
        simp only [List.mem_cons]
        constructor
        · exact fun h => Or.inr h
        · rintro (rfl | h)
          · exact Or.inl rfl
          · exact h
      · rw [if_neg h2]
        simp only [List.mem_cons, ih]
        tauto

theorem pairwise_sInsert {x : Int} {l : List Int}
    (h : List.Pairwise (· < ·) l) :
    List.Pairwise (· < ·) (sInsert x l) := by
  induction l with
  | nil => simp [sInsert]
  | cons y ys ih =>
    rw [List.pairwise_cons] at h
    obtain ⟨hy, hys⟩ := h
    rw [sInsert]
    by_cases h1 : x < y
    · rw [if_pos h1]
      rw [List.pairwise_cons]
      refine ⟨?_, List.pairwise_cons.mpr ⟨hy, hys⟩⟩
      intro a ha
      rcases List.mem_cons.mp ha with rfl | ha'
      · exact h1
      · exact lt_trans h1 (hy a ha')
    · rw [if_neg h1]
      by_cases h2 : x = y
      · rw [if_pos h2]
        exact List.pairwise_cons.mpr ⟨hy, hys⟩
      · rw [if_neg h2]
        have hyx : y < x := by omega
        rw [List.pairwise_cons]
        refine ⟨?_, ih hys⟩
        intro a ha
        rcases mem_sInsert.mp ha with rfl | ha'
        · exact hyx
        · exact hy a ha'

theorem sortedDedup_pairwise (l : List Int) :
    List.Pairwise (· < ·) (sortedDedup l) := by
  induction l with
  | nil => simp [sortedDedup]
  | cons x xs ih => exact pairwise_sInsert ih

theorem sortedDedup_of_pairwise {l : List Int}
    (h : List.Pairwise (· < ·) l) : sortedDedup l = l := by
  induction l with
  | nil => rfl
  | cons x xs ih =>
    rw [List.pairwise_cons] at h
    obtain ⟨hx, hxs⟩ := h
    show sInsert x (sortedDedup xs) = x :: xs
    rw [ih hxs]
    cases xs with
    | nil => rfl
    | cons y ys =>
      rw [sInsert, if_pos (hx y (List.mem_cons_self y ys))]

theorem levelsLoop_ok_sortedDedup :
    ∀ (ps : List (List Char)) (acc r : List Int),
      levelsLoop ps acc = .ok r → ∃ c, r = sortedDedup c := by
  intro ps
  induction ps with
  | nil =>
    intro acc r h
    rw [levelsLoop] at h
    exact ⟨acc, by injection h with h'; exact h'.symm⟩
  | cons p ps' ih =>
    intro acc r h
    rw [levelsLoop] at h
    by_cases hre : reMatchDD (strip p) = true
    · rw [if_pos hre] at h
      cases hsd : splitDD (strip p) with
      | nil => rw [hsd] at h; exact nomatch h
      | cons a rest =>
        cases rest with
        | nil => rw [hsd] at h; exact nomatch h
        | cons b rest2 =>
          cases rest2 with
          | nil =>
            rw [hsd] at h
            have h' : (match pyInt a, pyInt b with
                | Except.ok fa, Except.ok fb =>
                  levelsLoop ps' (acc ++ rangeList fa fb)
                | Except.error e, _ => Except.error e
                | Except.ok _, Except.error e => Except.error e)
                = Except.ok r := h
            cases hpa : pyInt a with
            | error e => simp [hpa] at h'
            | ok fa =>
              cases hpb : pyInt b with
              | error e => simp [hpa, hpb] at h'
              | ok fb =>
                rw [hpa, hpb] at h'
                exact ih _ _ h'
          | cons z zs => rw [hsd] at h; exact nomatch h
    · rw [if_neg hre] at h
      cases hpi : pyInt (strip p) with
      | error e => rw [hpi] at h; exact nomatch h
      | ok v =>
        rw [hpi] at h
        exact ih _ _ h

theorem levelsLoop_intStr :
    ∀ (xs acc : List Int), (∀ x ∈ xs, x < 1000) →
      levelsLoop (xs.map intStr) acc = .ok (sortedDedup (acc ++ xs)) := by
  intro xs
  induction xs with
  | nil => intro acc h; simp [levelsLoop]
  | cons x xs' ih =>
    intro acc h
    rw [List.map_cons, levelsLoop]
    have hs : strip (intStr x) = intStr x := strip_all_not_ws intStr_not_ws
    rw [hs, reMatchDD_intStr (h x (List.mem_cons_self x xs'))]
    rw [if_neg (by simp), pyInt_intStr]
    have hrec := ih (acc ++ [x]) fun y hy => h y (List.mem_cons_of_mem x hy)
    rw [List.append_assoc, List.singleton_append] at hrec
    exact hrec

/-- C7 (amended): for every accepted level spec whose LevelSet is
non-empty and all of whose levels are below 1000, serializing the
LevelSet as comma-joined integers and parsing again yields the same
LevelSet.  (The empty LevelSet serializes to `""`, which does not parse,
and a level of four or more digits trips the unescaped regex on
re-parse.) -/
theorem parse_levels_roundtrip (s : String) (ls : List Int)
    (hp : parse_levels s = .ok ls) (hne : ls ≠ [])
    (hb : ∀ x ∈ ls, x < 1000) :
    parse_levels (serializeLevels ls) = .ok ls := by
  have hpair : List.Pairwise (· < ·) ls := by
    obtain ⟨c, rfl⟩ := levelsLoop_ok_sortedDedup _ _ _ hp
    exact sortedDedup_pairwise c
  have hmapne : ls.map intStr ≠ [] := by
    intro hcontra
    exact hne (List.map_eq_nil_iff.mp hcontra)
  have htl : (String.mk (joinComma (ls.map intStr))).toList
      = joinComma (ls.map intStr) := rfl
  rw [serializeLevels, parse_levels, htl]
  rw [splitComma_joinComma hmapne ?nocomma]
  case nocomma =>
    intro t ht c hc
    obtain ⟨x, hx, rfl⟩ := List.mem_map.mp ht
    exact intStr_no_comma c hc
  rw [levelsLoop_intStr ls [] hb, List.nil_append,
    sortedDedup_of_pairwise hpair]

/-- C7 (amended, witness): `"1..3"` parses to `[1, 2, 3]`, whose
serialization `"1,2,3"` re-parses to the same LevelSet. -/
theorem parse_levels_roundtrip_witness :
    parse_levels (serializeLevels [1, 2, 3]) = .ok [1, 2, 3] :=
  parse_levels_roundtrip "1..3" [1, 2, 3] rfl (by decide) (by decide)
